import Mathlib

/-!
# Formal model of the demand-forecasting core

A shallow embedding, in Lean 4, of the forecasting pipeline of this
repository (`backend/app/models/...`): data preparation
(`data_processor.py`), statistical forecasting (`time_series_models.py`),
ensemble forecasting (`ensemble_models.py`), metric computation
(`model_evaluation.py`), orchestration and the model registry
(`forecast_service.py`), and the persistence layer (`database.py`).

Conventions of the embedding:
* Python floats are modelled by `ℚ` for finite values; where the code's
  control flow depends on `NaN`/`Inf` (the MAPE fallback, pandas means),
  values are modelled by `FVal`, rationals extended with `nan` and the two
  infinities, with IEEE-style propagation for the operations the code uses.
* Timestamps are modelled at the granularity the pipeline works at: a date
  is an integer (a month index for monthly-resampled series, an abstract
  linear time coordinate for interpolation weights).
* pandas dataframes become lists of records; a Python `dict` becomes an
  insertion-ordered association list (`dictInsert` models `d[k] = v`).
* Fitted statistical/ML models are opaque: a fitted model is represented by
  the function `ℕ → ℚ` of its successive raw predictions, which is what the
  surrounding code observes of it.
-/

namespace GPForecast

/-- Python `int(x)` on a float: truncation toward zero. -/
def pyInt (q : ℚ) : ℤ := if 0 ≤ q then ⌊q⌋ else -⌊-q⌋

/-- Python `min(items, key=lambda x: x[1])` over a nonempty association
list: the first entry with minimal value (strict improvement only, so ties
keep the earlier entry). -/
def argminVal : List (String × ℚ) → Option (String × ℚ)
  | [] => none
  | x :: xs =>
    some (xs.foldl (fun best y => if y.2 < best.2 then y else best) x)

/-- Python `d[k] = v` on an insertion-ordered dict: replace in place when
the key exists, else append. -/
def dictInsert (d : List (String × ℚ)) (k : String) (v : ℚ) :
    List (String × ℚ) :=
  if d.any (fun p => p.1 = k) then
    d.map (fun p => if p.1 = k then (k, v) else p)
  else d ++ [(k, v)]

/-! ## Extended float values

`FVal` models the IEEE float values the metric code distinguishes:
a finite value, `+inf`, `-inf`, and `NaN`.  Only the operations the
evaluators use are defined. -/

inductive FVal : Type where
  | fin (q : ℚ)
  | pinf
  | ninf
  | nan
  deriving DecidableEq, Repr

namespace FVal

/-- IEEE addition restricted to the cases arising in sums of error terms. -/
def add : FVal → FVal → FVal
  | nan, _ => nan
  | _, nan => nan
  | pinf, ninf => nan
  | ninf, pinf => nan
  | pinf, _ => pinf
  | _, pinf => pinf
  | ninf, _ => ninf
  | _, ninf => ninf
  | fin a, fin b => fin (a + b)

/-- IEEE subtraction, via the same case split. -/
def sub : FVal → FVal → FVal
  | nan, _ => nan
  | _, nan => nan
  | pinf, pinf => nan
  | ninf, ninf => nan
  | pinf, _ => pinf
  | _, pinf => ninf
  | ninf, _ => ninf
  | _, ninf => pinf
  | fin a, fin b => fin (a - b)

/-- IEEE division for the shapes `finite / finite` and `±inf / finite`
(the only ones the evaluators produce). -/
def div : FVal → FVal → FVal
  | nan, _ => nan
  | _, nan => nan
  | fin a, fin b =>
    if b = 0 then (if a = 0 then nan else if 0 < a then pinf else ninf)
    else fin (a / b)
  | pinf, fin b => if b < 0 then ninf else pinf
  | ninf, fin b => if b < 0 then pinf else ninf
  | _, pinf => nan
  | _, ninf => nan

/-- IEEE multiplication by a finite scalar. -/
def mulFin (c : ℚ) : FVal → FVal
  | nan => nan
  | pinf => if c = 0 then nan else if 0 < c then pinf else ninf
  | ninf => if c = 0 then nan else if 0 < c then ninf else pinf
  | fin a => fin (c * a)

/-- IEEE absolute value. -/
def fabs : FVal → FVal
  | nan => nan
  | pinf => pinf
  | ninf => pinf
  | fin a => fin |a|

/-- `np.isinf(x) or np.isnan(x)` — the condition guarding the MAPE
fallback in all three metric routines. -/
def infOrNan : FVal → Bool
  | fin _ => false
  | _ => true

/-- Sum of a list of extended values (IEEE propagation). -/
def fsum (l : List FVal) : FVal := l.foldr add (fin 0)

/-- `np.mean` over the values of a list (no NaN skipping). -/
def fmean (l : List FVal) : FVal := (fsum l).div (fin (l.length : ℚ))

/-- pandas `Series.mean()` with its default `skipna=True`: NaNs are
dropped; the mean of nothing is `NaN`. -/
def meanSkipNan (l : List FVal) : FVal :=
  let kept := l.filter (fun v => v ≠ nan)
  if kept.length = 0 then nan else (fsum kept).div (fin (kept.length : ℚ))

/-- `Series.clip(lower=0)` on an extended value (NaN is left alone by
pandas `clip`). -/
def clip0 : FVal → FVal
  | nan => nan
  | pinf => pinf
  | ninf => fin 0
  | fin a => fin (max 0 a)

end FVal

/-! ## DataPreparer (`deman_forecast/data_processor.py`)

A single-entity series is a list of `(date, value)` pairs where a missing
(NaN) value is `none`.  `preprocess_data` is modelled per category, which
is exactly how the source iterates (each category's quantiles, outlier
mask and interpolation are computed independently). -/

/-- One observation of one entity's series: a time coordinate and an
optionally-missing quantity. -/
abbrev Obs := ℤ × Option ℚ

/-- The present (non-NaN) values of a series, as pandas `quantile`,
`max`, `min` see them. -/
def presentVals (l : List Obs) : List ℚ := l.filterMap Prod.snd

/-- pandas `Series.quantile(q)` (default linear interpolation) over a list
of present values: sort ascending, take position `q·(n−1)`, interpolating
linearly between the two neighbouring order statistics. -/
def quantileLinear (xs : List ℚ) (q : ℚ) : ℚ :=
  let s := xs.insertionSort (· ≤ ·)
  let n := s.length
  if n = 0 then 0
  else
    let h : ℚ := q * ((n : ℚ) - 1)
    let lo : ℕ := (⌊h⌋).toNat
    let a := s.getD lo 0
    let b := s.getD (lo + 1) a
    a + (h - (⌊h⌋ : ℚ)) * (b - a)

/-- The IQR outlier pass of `preprocess_data` (lines 184–209): bounds
`Q1 − 2·IQR` and `Q3 + 2·IQR` computed from the present values; an
out-of-bound value is set to NaN (`none`), never dropped.  When the series
has no present values the quantiles are NaN and no comparison fires, so
the series is returned unchanged. -/
def remove_outliers_pass (l : List Obs) : List Obs :=
  let vals := presentVals l
  if vals.length = 0 then l
  else
    let q1 := quantileLinear vals (1/4)
    let q3 := quantileLinear vals (3/4)
    let iqr := q3 - q1
    let lb := q1 - 2 * iqr
    let ub := q3 + 2 * iqr
    l.map (fun (d, v) =>
      match v with
      | none => (d, none)
      | some x => if x < lb ∨ ub < x then (d, none) else (d, some x))

/-- The last valid observation strictly before position `i` — what
time interpolation uses as its left endpoint. -/
def prevValid (l : List Obs) (i : ℕ) : Option (ℤ × ℚ) :=
  ((l.take i).filterMap (fun (d, v) => v.map (fun x => (d, x)))).getLast?

/-- The first valid observation strictly after position `i`. -/
def nextValid (l : List Obs) (i : ℕ) : Option (ℤ × ℚ) :=
  ((l.drop (i + 1)).filterMap (fun (d, v) => v.map (fun x => (d, x)))).head?

/-- pandas `interpolate(method='time')` at one missing position: linear in
the time coordinate between the surrounding valid observations; a missing
value after the last valid observation is filled with that observation's
value; a missing value before the first valid observation stays NaN. -/
def interpAt (l : List Obs) (i : ℕ) (d : ℤ) : Option ℚ :=
  match prevValid l i, nextValid l i with
  | some (d1, v1), some (d2, v2) =>
      some (v1 + (v2 - v1) * ((d : ℚ) - (d1 : ℚ)) / ((d2 : ℚ) - (d1 : ℚ)))
  | some (_, v1), none => some v1
  | none, _ => none

/-- The interpolation pass of `preprocess_data` (lines 211–227): every
missing value is replaced by its time-interpolated value; present values
are untouched. -/
def fill_missing_pass (l : List Obs) : List Obs :=
  l.enum.map (fun (i, (d, v)) =>
    match v with
    | some x => (d, some x)
    | none => (d, interpAt l i d))

/-- `DemandDataProcessor.preprocess_data` with its defaults
(`remove_outliers=True, fill_missing=True`), on one entity's series. -/
def preprocess_data (l : List Obs) : List Obs :=
  fill_missing_pass (remove_outliers_pass l)

/-! ## Chronological splitting

Three implementations produce chronological train/test splits:
`DemandDataProcessor.split_train_test` (date cutoff over unique dates),
`TimeSeriesModels.train_test_split` (positional split of a series), and
`EnsembleForecaster.train_test_split` (sort by date, positional split). -/

/-- A dataframe row as the splitters see it: an entity (category), a
period, and the target quantity. -/
structure Row where
  category : String
  date : ℤ
  qty : ℚ
  deriving DecidableEq, Repr

/-- `DemandDataProcessor.split_train_test` with `by_date=True` and no
explicit `test_start_date` (lines 256–268): the cutoff date is the
`int(n·(1−test_size))`-th of the sorted unique dates (Python negative
indices wrap once; an index out of range raises, modelled as `none`);
train is `date < cutoff`, test is `date ≥ cutoff`. -/
def split_cutoff (df : List Row) (test_size : ℚ) : Option ℤ :=
  let ud := ((df.map Row.date).dedup).insertionSort (· ≤ ·)
  let k : ℤ := pyInt ((ud.length : ℚ) * (1 - test_size))
  let idx : ℤ := if k < 0 then k + ud.length else k
  if idx < 0 then none else ud.get? idx.toNat

/-- The filtering step of `split_train_test`, given the resolved cutoff
date. -/
def split_train_test (df : List Row) (test_size : ℚ) :
    Option (List Row × List Row) :=
  (split_cutoff df test_size).map (fun td =>
    (df.filter (fun r => r.date < td), df.filter (fun r => td ≤ r.date)))

/-- `TimeSeriesModels.train_test_split` (lines 105–129): `None` input or
empty series yields `(None, None)`; otherwise the first
`int(n·(1−test_size))` observations are train, the rest test. -/
def ts_train_test_split (ts : List (ℤ × ℚ)) (test_size : ℚ) :
    Option (List (ℤ × ℚ) × List (ℤ × ℚ)) :=
  if ts.length = 0 then none
  else
    let k := (pyInt ((ts.length : ℚ) * (1 - test_size))).toNat
    some (ts.take k, ts.drop k)

/-- `EnsembleForecaster.train_test_split` with `time_based=True` and a
date column (lines 174–187): rows are reordered by `argsort` of the date
column, then split positionally at `int(n·(1−test_size))`. -/
def ensemble_train_test_split (rows : List Row) (test_size : ℚ) :
    List Row × List Row :=
  let sorted := rows.insertionSort (fun a b => a.date ≤ b.date)
  let k := (pyInt ((rows.length : ℚ) * (1 - test_size))).toNat
  (sorted.take k, sorted.drop k)

/-! ## StatisticalForecaster (`time_series_models.py`)

A fitted model is opaque to the surrounding code; it is represented by
the function `ℕ → ℚ` of its raw successive predictions (what
`model.forecast(steps)` returns, on the scale the model was fitted on).
Monthly periods are integer month indices; the index construction
`pd.date_range(start=last, periods=h+1, freq='M')[1:]` yields the `h`
consecutive months after the last training month. -/

/-- The forecast index: `h` consecutive periods immediately after the last
training period. -/
def futureIndexM (last : ℤ) (h : ℕ) : List ℤ :=
  (List.range h).map (fun (i : ℕ) => last + 1 + (i : ℤ))

/-- `TimeSeriesModels.prepare_data` with monthly resampling: the series
the model is fitted on.  The source computes
`target_data = np.log1p(target)` when `log_transform` is set and all
targets are positive (lines 86–90) — `f` stands for that `log1p` — but
then resamples the original, untransformed column (line 98), so
`_target_data` is discarded.  The resampled series covers the contiguous
month range of the input, summing the rows of each month. -/
def resampleMSum (rows : List (ℤ × ℚ)) : List (ℤ × ℚ) :=
  match rows with
  | [] => []
  | r :: rs =>
    let lo := rs.foldl (fun m p => min m p.1) r.1
    let hi := rs.foldl (fun m p => max m p.1) r.1
    (List.range (hi - lo + 1).toNat).map (fun i =>
      (lo + i, ((rows.filter (fun p => p.1 = lo + i)).map Prod.snd).sum))

/-- The fit-time series produced by `prepare_data` (lines 47–103). -/
def prepare_data_fit_series (log_transform : Bool) (f : ℚ → ℚ)
    (rows : List (ℤ × ℚ)) : List (ℤ × ℚ) :=
  let _target_data :=
    if log_transform && rows.all (fun r => 0 < r.2) then
      rows.map (fun (d, v) => (d, f v))
    else rows
  resampleMSum rows

/-- `TimeSeriesModels.generate_future_forecast` (lines 703–780): index of
`h` months after the last training month, raw model outputs, inverse
transform (`inv` stands for `np.expm1`) when the model was fitted with
`log_transform`, and a final `clip(lower=0)`. -/
def generate_future_forecast (last : ℤ) (h : ℕ) (M : ℕ → ℚ)
    (log_transform : Bool) (inv : ℚ → ℚ) : List (ℤ × ℚ) :=
  (List.range h).map (fun i =>
    let v := if log_transform then inv (M i) else M i
    (last + 1 + i, max 0 v))

/-- A calendar timestamp at the granularity `forecast_arima`'s index
logic inspects: the month index and the day of month.  (The other
forecast paths never look at the day; `generate_future_forecast`'s
`date_range(last, h+1, freq)[1:]` index coincides with the model's own
month-end forecast labels for the pipeline's `resample('M')` series, so
its label alignment is the identity and month granularity suffices
there.) -/
structure MDate where
  month : ℤ
  day : ℕ
  deriving DecidableEq, Repr

/-- The forecast a fitted statsmodels model returns for a month-end
(`resample('M')`) training series: `h` values labelled with the next `h`
month-ends, `endDay m` being the calendar's last day of month `m`. -/
def arimaForecastLabels (endDay : ℤ → ℕ) (m : ℤ) (h : ℕ) (M : ℕ → ℚ) :
    List (MDate × ℚ) :=
  (List.range h).map (fun (i : ℕ) =>
    ((⟨m + 1 + (i : ℤ), endDay (m + 1 + (i : ℤ))⟩ : MDate), M i))

/-- The index `forecast_arima` constructs (lines 354–367): when the last
training date's day is ≤ 28 the code assumes month-start data and takes
`date_range(last + DateOffset(months=1), periods=h, freq='MS')` — `h`
month-starts from the first one on or after that offset date (the very
next month when the day is 1, otherwise the month after that); when the
day exceeds 28 it takes `date_range(last, periods=h+1, freq='M')[1:]`,
the next `h` month-ends. -/
def forecast_arima_index (endDay : ℤ → ℕ) (last : MDate) (h : ℕ) :
    List MDate :=
  if last.day ≤ 28 then
    if last.day = 1 then
      (List.range h).map (fun (i : ℕ) =>
        (⟨last.month + 1 + (i : ℤ), 1⟩ : MDate))
    else
      (List.range h).map (fun (i : ℕ) =>
        (⟨last.month + 2 + (i : ℤ), 1⟩ : MDate))
  else
    (List.range h).map (fun (i : ℕ) =>
      (⟨last.month + 1 + (i : ℤ), endDay (last.month + 1 + (i : ℤ))⟩ : MDate))

/-- The evaluation-time forecast path `TimeSeriesModels.forecast_arima`
(lines 327–397): `pd.Series(forecast, index=forecast_index)` re-aligns
the model's labelled forecast to the constructed index BY LABEL, leaving
NaN (`none`) wherever the labels do not match; the inverse transform
(`inv` stands for `np.expm1`, which maps NaN to NaN) is applied
afterwards, and there is NO clip of negative values. -/
def forecast_arima_series (endDay : ℤ → ℕ) (last : MDate) (h : ℕ)
    (M : ℕ → ℚ) (log_transform : Bool) (inv : ℚ → ℚ) :
    List (MDate × Option ℚ) :=
  (forecast_arima_index endDay last h).map (fun d =>
    (d, ((arimaForecastLabels endDay last.month h M).lookup d).map
      (fun v => if log_transform then inv v else v)))

/-- `EnsembleForecaster.forecast_future` (lines 599–616): ML predictions
over the future index, clipped at zero. -/
def forecast_future (last : ℤ) (h : ℕ) (pred : ℕ → ℚ) : List (ℤ × ℚ) :=
  (List.range h).map (fun (i : ℕ) => (last + 1 + (i : ℤ), max 0 (pred i)))

/-! ## ModelEvaluator / metric computation

Both metric routines are modelled over two aligned lists of finite actual
and predicted values (the source first drops non-overlapping points). -/

/-- Largest element of a list of rationals (`np.max` / `Series.max`). -/
def maxListQ : List ℚ → ℚ
  | [] => 0
  | x :: xs => xs.foldl max x

/-- Smallest element of a list of rationals. -/
def minListQ : List ℚ → ℚ
  | [] => 0
  | x :: xs => xs.foldl min x

/-- Mean absolute error over aligned pairs. -/
def maeQ (actual predicted : List ℚ) : ℚ :=
  (((actual.zip predicted).map (fun ap => |ap.1 - ap.2|)).sum) /
    ((actual.zip predicted).length : ℚ)

/-- `np.mean(np.abs((y_test - y_pred) / y_test)) * 100` with IEEE
semantics — the raw MAPE of `EnsembleForecaster.evaluate_model` (and of
`calculate_forecast_metrics` in `time_series_models.py`). -/
def raw_mape (actual predicted : List ℚ) : FVal :=
  (FVal.fmean ((actual.zip predicted).map (fun ap =>
    ((FVal.fin (ap.1 - ap.2)).div (FVal.fin ap.1)).fabs))).mulFin 100

/-- `EnsembleForecaster.evaluate_model`'s MAPE (lines 331–342): raw MAPE;
if it is Inf or NaN, fall back to `(mae / (max−min)) * 100` when the
actual range is positive, else NaN. -/
def evaluate_model_mape (actual predicted : List ℚ) : FVal :=
  let mape := raw_mape actual predicted
  if mape.infOrNan then
    let data_range := maxListQ actual - minListQ actual
    if 0 < data_range then FVal.fin ((maeQ actual predicted / data_range) * 100)
    else FVal.nan
  else mape

/-- `ModelEvaluator.evaluate_forecast`'s MAPE (lines 56–71): zero actuals
are masked out first; the MAPE is the mean over the surviving pairs (NaN
when none survive); the range-normalised fallback applies only when that
masked MAPE is Inf or NaN. -/
def evaluate_forecast_mape (actual predicted : List ℚ) : FVal :=
  let pairs := (actual.zip predicted).filter (fun ap => ap.1 ≠ 0)
  let mape : FVal :=
    if 0 < pairs.length then
      FVal.fin ((((pairs.map (fun ap => |(ap.1 - ap.2) / ap.1|)).sum) /
        (pairs.length : ℚ)) * 100)
    else FVal.nan
  if mape.infOrNan then
    let data_range := maxListQ actual - minListQ actual
    if 0 < data_range then FVal.fin ((maeQ actual predicted / data_range) * 100)
    else FVal.nan
  else mape

/-! ## ForecastOrchestrator (`forecast_service.py`)

### Best-overall model selection (`train_models_for_category`)

The statistical forecaster (`self.ts_models`) is one shared instance whose
`metrics` dict is never cleared; every successful statistical fit inserts
`metrics[f"{kind}_{category}"] = {...}` into it, across all categories of
a run.  Line 383 then takes
`min(self.ts_models.metrics.items(), key=lambda x: x[1]['rmse'])` over the
WHOLE dict, while the ensemble side (`train_and_evaluate`'s returned
dict) is per-call.  The embedding keeps only what the selection reads:
the rmse of each model. -/

/-- What one category's training contributes: the successfully
fitted-and-scored statistical models `(model_key, rmse)` in training
order, and the ensemble results `(model_type, rmse)` returned by
`train_and_evaluate`. -/
structure CatTraining where
  category : String
  tsFits : List (String × ℚ)
  ensembleResults : List (String × ℚ)

/-- The statistical forecaster's `metrics` dict after this category's
fits are inserted into the accumulated dict `st`. -/
def ts_metrics_after (st : List (String × ℚ)) (c : CatTraining) :
    List (String × ℚ) :=
  c.tsFits.foldl (fun d kv => dictInsert d kv.1 kv.2) st

/-- The evaluation block of `ForecastService.train_models_for_category`
(lines 380–461), with both model families enabled. -/
structure EvalOutcome where
  best_timeseries : Option (String × ℚ)
  best_ensemble : Option (String × ℚ)
  best_overall : Option String
  deriving DecidableEq, Repr

/-- The model-selection logic of `train_models_for_category`: the best
statistical model is the minimum-rmse entry of the forecaster's whole
accumulated `metrics` dict (line 383); the best ensemble model is the
minimum-rmse entry of this call's `ensemble_results`, renamed
`ensemble_{type}_{category}` (line 434); the overall winner compares the
two rmse values, the statistical model winning ties (line 444). -/
def train_models_for_category_eval (st : List (String × ℚ))
    (c : CatTraining) : EvalOutcome :=
  let st' := ts_metrics_after st c
  let bts := argminVal st'
  let bens :=
    match argminVal c.ensembleResults with
    | some (k, r) => some ("ensemble_" ++ k ++ "_" ++ c.category, r)
    | none => none
  let overall :=
    match bts, bens with
    | some (tk, tr), some (_, er) =>
        if tr ≤ er then some tk
        else (bens.map Prod.fst)
    | some (tk, _), none => some tk
    | none, some (ek, _) => some ek
    | none, none => none
  ⟨bts, bens, overall⟩

/-- Modelled from the claim's words (for comparison with the code): the
best statistical candidate is the minimum-RMSE model among the
statistical kinds fitted for THIS category only; ties favour the
statistical model. -/
def claim_best_overall (c : CatTraining) : Option String :=
  let bts := argminVal c.tsFits
  let bens :=
    match argminVal c.ensembleResults with
    | some (k, r) => some ("ensemble_" ++ k ++ "_" ++ c.category, r)
    | none => none
  match bts, bens with
  | some (tk, tr), some (ek, er) => some (if tr ≤ er then tk else ek)
  | some (tk, _), none => some tk
  | none, some (ek, _) => some ek
  | none, none => none

/-! ### Item-level disaggregation (`generate_item_level_forecasts`)

The function never fits or invokes an item-level model: for every
specification with enough history it multiplies the CATEGORY forecast
(produced by the category's best registered model) by the item's mean
historical share of the category total.  Periods are absolute month
indices (the source groups by `(year, month)`). -/

/-- One row of the preprocessed item-level dataframe. -/
structure ItemRow where
  category : String
  specification : String
  month : ℤ
  qty : ℚ
  deriving DecidableEq, Repr

/-- `groupby(['year','month'])['total_quantity'].sum()` — pandas sorts
the group keys. -/
def monthly_sum (rows : List ItemRow) : List (ℤ × ℚ) :=
  (((rows.map ItemRow.month).dedup).insertionSort (· ≤ ·)).map (fun m =>
    (m, ((rows.filter (fun r => r.month = m)).map ItemRow.qty).sum))

/-- The inner merge of spec and category monthly sums followed by
`ratio = spec / category` and `.mean()` (lines 859–868): pandas `mean`
skips NaN entries (0/0 months) and is NaN when nothing remains. -/
def mean_share (specMonthly catMonthly : List (ℤ × ℚ)) : FVal :=
  FVal.meanSkipNan (specMonthly.filterMap (fun mv =>
    (catMonthly.lookup mv.1).map (fun qc =>
      (FVal.fin mv.2).div (FVal.fin qc))))

/-- `if np.isnan(mean_ratio) or mean_ratio == 0: mean_ratio = 0.1`
(lines 870–871). -/
def applied_share (m : FVal) : FVal :=
  match m with
  | FVal.nan => FVal.fin (1/10)
  | FVal.fin q => if q = 0 then FVal.fin (1/10) else FVal.fin q
  | v => v

/-- Number of months the monthly resample of `rows` spans (the length of
`prepare_data`'s output): the contiguous range from first to last month. -/
def month_span (rows : List ItemRow) : ℕ :=
  match rows with
  | [] => 0
  | r :: rs =>
    let lo := rs.foldl (fun m p => min m p.month) r.month
    let hi := rs.foldl (fun m p => max m p.month) r.month
    (hi - lo + 1).toNat

/-- The per-specification body of
`ForecastService.generate_item_level_forecasts` (lines 829–893), given
the preprocessed item-level data and the category forecast produced by
the category's best model: `none` when the specification is skipped for
insufficient history (fewer than 5 rows, or a prepared series shorter
than 5), otherwise the category forecast scaled by the item's applied
mean share and clipped at zero. -/
def generate_item_forecast (processed : List ItemRow)
    (category specification : String) (catForecast : List (ℤ × ℚ)) :
    Option (List (ℤ × FVal)) :=
  let specData := processed.filter (fun r =>
    r.category = category ∧ r.specification = specification)
  if specData.length < 5 then none
  else if month_span specData < 5 then none
  else
    let catData := processed.filter (fun r => r.category = category)
    let share := applied_share
      (mean_share (monthly_sum specData) (monthly_sum catData))
    some (catForecast.map (fun dv => (dv.1, FVal.clip0 (share.mulFin dv.2))))

/-! ### Model registry (`load_model_registry` / `save_model_registry`)

The registry is one JSON document: an object mapping each `model_id` to
the entry built by `register_model` (lines 93–127).  `save` serialises
the whole dict with `json.dump`; `load` replaces the in-memory dict with
`json.load`'s result.  The embedding works on the JSON tree; metric
values are floats that may be NaN (Python's `json` round-trips them). -/

/-- The JSON documents the registry produces. -/
inductive Json : Type where
  | null
  | str (s : String)
  | num (v : FVal)
  | obj (fields : List (String × Json))
  deriving Repr

/-- One registry entry as built by `register_model`. -/
structure RegistryEntry where
  model_id : String
  model_type : String
  category : String
  specification : Option String
  timestamp : String
  metrics : Option (List (String × FVal))
  deriving DecidableEq, Repr

/-- Serialisation of the optional metrics dict. -/
def encodeMetrics : Option (List (String × FVal)) → Json
  | none => Json.null
  | some m => Json.obj (m.map (fun kv => (kv.1, Json.num kv.2)))

/-- Serialisation of one registry entry. -/
def encodeEntry (e : RegistryEntry) : Json :=
  Json.obj [("model_id", Json.str e.model_id),
            ("model_type", Json.str e.model_type),
            ("category", Json.str e.category),
            ("specification",
              match e.specification with
              | none => Json.null
              | some s => Json.str s),
            ("timestamp", Json.str e.timestamp),
            ("metrics", encodeMetrics e.metrics)]

/-- Reading a JSON string field. -/
def decodeStr : Json → Option String
  | Json.str s => some s
  | _ => none

/-- Reading a nullable JSON string field. -/
def decodeOptStr : Json → Option (Option String)
  | Json.null => some none
  | Json.str s => some (some s)
  | _ => none

/-- Reading the nullable metrics object. -/
def decodeMetrics : Json → Option (Option (List (String × FVal)))
  | Json.null => some none
  | Json.obj l =>
    (l.mapM (fun (kv : String × Json) =>
      match kv.2 with
      | Json.num v => some (kv.1, v)
      | _ => (none : Option (String × FVal)))).map some
  | _ => none

/-- Deserialisation of one registry entry. -/
def decodeEntry : Json → Option RegistryEntry
  | Json.obj l => do
    let mid ← (l.lookup "model_id").bind decodeStr
    let mty ← (l.lookup "model_type").bind decodeStr
    let cat ← (l.lookup "category").bind decodeStr
    let spc ← (l.lookup "specification").bind decodeOptStr
    let ts ← (l.lookup "timestamp").bind decodeStr
    let mts ← (l.lookup "metrics").bind decodeMetrics
    pure ⟨mid, mty, cat, spc, ts, mts⟩
  | _ => none

/-- `ForecastService.save_model_registry` (lines 73–91): the whole
registry dict, serialised as one JSON object. -/
def save_model_registry (reg : List (String × RegistryEntry)) : Json :=
  Json.obj (reg.map (fun ke => (ke.1, encodeEntry ke.2)))

/-- `ForecastService.load_model_registry` (lines 49–71): parse the saved
document back into the registry dict; any malformed entry fails the load
(`return False`). -/
def load_model_registry (j : Json) :
    Option (List (String × RegistryEntry)) :=
  match j with
  | Json.obj l => l.mapM (fun ke => (decodeEntry ke.2).map (fun e => (ke.1, e)))
  | _ => none

/-! ## Persistence layer (`database.py`)

`insert_data` (lines 67–89) runs entirely inside one `try`: it drops the
destination collection, then bulk-inserts, returning the inserted count;
ANY exception (a failing drop, a failing insert, and in particular
pymongo's "empty bulk insert" error on an empty record list) is caught
and `0` is returned.  The two `Bool` flags model whether the drop and
the insert step succeed; an empty record list always fails the insert. -/

/-- The store: collection name to current contents. -/
def insert_data {α : Type} (store : String → List α) (coll : String)
    (data : List α) (dropOk insertOk : Bool) : (String → List α) × ℕ :=
  if !dropOk then (store, 0)
  else
    let dropped := fun c => if c = coll then [] else store c
    if data.isEmpty || !insertOk then (dropped, 0)
    else (fun c => if c = coll then data else store c, data.length)

/-! # Theorems -/

/-- C5: the code is wrong and the spec states the intent.  With
`log_transform` enabled, `prepare_data` computes the `log1p` image of the
target into a local (`target_data`, lines 86–90) and then resamples the
ORIGINAL column (line 98), so the series used to fit the model is the raw
series for every transform `f`, not its `log1p` image — here `f := (·+1)`
would have produced `[(0, 11)]` from `[(0, 10)]`, but the fitted series
stays `[(0, 10)]` — while `generate_future_forecast` still applies the
`expm1` inverse (`inv`) to the raw model output (lines 766–768), so the
transform cannot round-trip. -/
theorem C5_log_transform_discarded :
    (∀ (log_transform : Bool) (f : ℚ → ℚ) (rows : List (ℤ × ℚ)),
      prepare_data_fit_series log_transform f rows = resampleMSum rows)
    ∧ prepare_data_fit_series true (fun v => v + 1) [(0, 10)] = [(0, 10)]
    ∧ prepare_data_fit_series true (fun v => v + 1) [(0, 10)] ≠ [(0, (10 : ℚ) + 1)]
    ∧ (∀ (last : ℤ) (h : ℕ) (M : ℕ → ℚ) (inv : ℚ → ℚ),
      generate_future_forecast last h M true inv =
        (List.range h).map (fun (i : ℕ) => (last + 1 + (i : ℤ), max 0 (inv (M i))))) := by
  have heval : prepare_data_fit_series true (fun v => v + 1) [(0, 10)] = [(0, 10)] := by
    norm_num [prepare_data_fit_series, resampleMSum, Int.toNat, List.range_succ]
  refine ⟨fun _ _ _ => rfl, heval, by rw [heval]; norm_num, fun last h M inv => ?_⟩
  simp only [generate_future_forecast, if_pos]

/-- C10: `insert_data` never raises: with the drop succeeding, it returns
the inserted count on success and `0` on any insert failure (an empty
record list always fails pymongo's bulk insert); in every failure case
after the drop the destination collection has already been emptied, so
the prior contents are lost while the caller sees `0`; on success the
destination holds exactly the new records (drop-then-insert replace
semantics); the returned count is always either `0` or the record
count — never an exception. -/
theorem C10_insert_data_drop_semantics {α : Type} (store : String → List α)
    (coll : String) (data : List α) :
    ((insert_data store coll data true true).2 =
      if data.isEmpty then 0 else data.length)
    ∧ ((insert_data store coll data true true).1 coll =
      if data.isEmpty then [] else data)
    ∧ ((insert_data store coll data true false).1 coll = [])
    ∧ ((insert_data store coll data true false).2 = 0)
    ∧ ((insert_data store coll ([] : List α) true true).1 coll = [])
    ∧ ((insert_data store coll ([] : List α) true true).2 = 0)
    ∧ (∀ dropOk insertOk, (insert_data store coll data dropOk insertOk).2 = 0
        ∨ (insert_data store coll data dropOk insertOk).2 = data.length) := by
  refine ⟨?_, ?_, by simp [insert_data], by simp [insert_data],
    by simp [insert_data], by simp [insert_data], ?_⟩
  · cases h : data.isEmpty <;> simp [insert_data, h]
  · cases h : data.isEmpty <;> simp [insert_data, h]
  · intro dropOk insertOk
    cases dropOk <;> cases insertOk <;> cases h : data.isEmpty <;>
      simp [insert_data, h]

/-- C4 counterexample: the claim asserts the zero floor also on the
evaluation-time path, but `forecast_arima` (lines 327–397) does not clip:
a fitted model whose one-step raw prediction is `−5`, its month-end
training data ending on day 31 of month 0, yields the forecast value
`−5 < 0` on the path scored against test data. -/
theorem C4_eval_path_negative_cex :
    forecast_arima_series (fun _ => 31) ⟨0, 31⟩ 1 (fun _ => (-5 : ℚ))
      false id = [(⟨1, 31⟩, some (-5))]
    ∧ (-5 : ℚ) < 0 := by
  constructor
  · norm_num [forecast_arima_series, forecast_arima_index,
      arimaForecastLabels, List.range_succ, List.range_zero, List.lookup]
  · norm_num

/-- `List.lookup` misses every absent key. -/
theorem lookup_eq_none_of_forall_ne {β : Type} (a : MDate)
    (l : List (MDate × β)) (h : ∀ kv ∈ l, kv.1 ≠ a) : l.lookup a = none := by
  induction l with
  | nil => rfl
  | cons kv t ih =>
    obtain ⟨k, b⟩ := kv
    have hne : (a == k) = false := by
      rw [beq_eq_false_iff_ne]
      exact fun hc => h (k, b) (List.mem_cons_self _ _) hc.symm
    simp only [List.lookup, hne]
    exact ih (fun kv hkv => h kv (List.mem_cons_of_mem _ hkv))

/-- `List.lookup` over an injectively keyed range-built map finds the
`i`-th value at the `i`-th key. -/
theorem lookup_range_map {β : Type} :
    ∀ (n : ℕ) (key : ℕ → MDate) (f : ℕ → β) (i : ℕ), i < n →
      (∀ j k, key j = key k → j = k) →
      ((List.range n).map (fun j => (key j, f j))).lookup (key i) =
        some (f i) := by
  intro n
  induction n with
  | zero => intro key f i hi _; omega
  | succ n ih =>
    intro key f i hi hinj
    rw [List.range_succ_eq_map, List.map_cons, List.map_map]
    by_cases h0 : i = 0
    · subst h0
      simp [List.lookup]
    · obtain ⟨j, rfl⟩ : ∃ j, i = j + 1 := ⟨i - 1, by omega⟩
      have hne : (key (j + 1) == key 0) = false := by
        rw [beq_eq_false_iff_ne]
        exact fun hc => h0 (hinj _ _ hc)
      simp only [List.lookup, hne]
      have hcomp : (fun j => (key j, f j)) ∘ Nat.succ =
          fun x => (key (x + 1), f (x + 1)) := rfl
      rw [hcomp]
      exact ih (fun x => key (x + 1)) (fun x => f (x + 1)) j (by omega)
        (fun a b hab => by have := hinj (a + 1) (b + 1) hab; omega)

/-- C4 as amended: both forward paths (`generate_future_forecast` and the
ensemble `forecast_future`) return exactly `h` pairs whose periods are
the `h` consecutive periods immediately after the last training period,
in strictly ascending order, with every value floored at zero.  The
evaluation-time path `forecast_arima` never floors, and its index logic
branches on the last training date's day: for a day above 28 (every
month-end except February's) it returns the next `h` month-ends carrying
the raw, possibly negative, model outputs; for a day in 2..28 (e.g. a
non-leap-February month-end) it builds a month-START index whose first
period is TWO months after the last training month, and the label
re-alignment of `pd.Series(forecast, index)` against the model's
month-end-labelled forecast leaves every value NaN. -/
theorem C4_forecast_shape (last : ℤ) (h : ℕ) (M : ℕ → ℚ) (lt : Bool)
    (inv : ℚ → ℚ) (pred : ℕ → ℚ) (endDay : ℤ → ℕ) (lastDate : MDate) :
    ((generate_future_forecast last h M lt inv).length = h
      ∧ (generate_future_forecast last h M lt inv).map Prod.fst = futureIndexM last h
      ∧ ∀ p ∈ generate_future_forecast last h M lt inv, 0 ≤ p.2)
    ∧ ((forecast_future last h pred).length = h
      ∧ (forecast_future last h pred).map Prod.fst = futureIndexM last h
      ∧ ∀ p ∈ forecast_future last h pred, 0 ≤ p.2)
    ∧ (28 < lastDate.day →
      forecast_arima_series endDay lastDate h M lt inv =
        (List.range h).map (fun (i : ℕ) =>
          ((⟨lastDate.month + 1 + (i : ℤ),
            endDay (lastDate.month + 1 + (i : ℤ))⟩ : MDate),
           some (if lt then inv (M i) else M i))))
    ∧ (1 < lastDate.day → lastDate.day ≤ 28 → (∀ m, 28 ≤ endDay m) →
      forecast_arima_series endDay lastDate h M lt inv =
        (List.range h).map (fun (i : ℕ) =>
          ((⟨lastDate.month + 2 + (i : ℤ), 1⟩ : MDate), (none : Option ℚ))))
    ∧ (futureIndexM last h).Pairwise (· < ·)
    ∧ (futureIndexM last h).head? = if h = 0 then none else some (last + 1) := by
  refine ⟨⟨?_, ?_, ?_⟩, ⟨?_, ?_, ?_⟩, ?_, ?_, ?_, ?_⟩
  · simp [generate_future_forecast]
  · simp only [generate_future_forecast, futureIndexM, List.map_map]
    rfl
  · intro p hp
    simp only [generate_future_forecast, List.mem_map] at hp
    obtain ⟨i, _, rfl⟩ := hp
    exact le_max_left 0 _
  · simp [forecast_future]
  · simp only [forecast_future, futureIndexM, List.map_map]
    rfl
  · intro p hp
    simp only [forecast_future, List.mem_map] at hp
    obtain ⟨i, _, rfl⟩ := hp
    exact le_max_left 0 _
  · intro hday
    rw [forecast_arima_series, forecast_arima_index, if_neg (by omega),
      arimaForecastLabels, List.map_map]
    refine List.map_congr_left ?_
    intro i hi
    rw [List.mem_range] at hi
    have hinj : ∀ j k : ℕ,
        ((⟨lastDate.month + 1 + (j : ℤ),
          endDay (lastDate.month + 1 + (j : ℤ))⟩ : MDate) =
         ⟨lastDate.month + 1 + (k : ℤ),
          endDay (lastDate.month + 1 + (k : ℤ))⟩) → j = k := by
      intro j k hjk
      have hm := congrArg MDate.month hjk
      simp only at hm
      omega
    have hl := lookup_range_map h
      (fun j => (⟨lastDate.month + 1 + (j : ℤ),
        endDay (lastDate.month + 1 + (j : ℤ))⟩ : MDate)) M i hi hinj
    simp only [Function.comp_apply]
    rw [hl]
    rfl
  · intro hday1 hday28 hcal
    rw [forecast_arima_series, forecast_arima_index, if_pos hday28,
      if_neg (by omega), List.map_map]
    refine List.map_congr_left ?_
    intro i _
    simp only [Function.comp_apply]
    have hnone : (arimaForecastLabels endDay lastDate.month h M).lookup
        (⟨lastDate.month + 2 + (i : ℤ), 1⟩ : MDate) = none := by
      refine lookup_eq_none_of_forall_ne _ _ ?_
      intro kv hkv
      rw [arimaForecastLabels] at hkv
      obtain ⟨j, _, rfl⟩ := List.mem_map.mp hkv
      intro hc
      have hd := congrArg MDate.day hc
      simp only at hd
      have := hcal (lastDate.month + 1 + (j : ℤ))
      omega
    rw [hnone]
    rfl
  · unfold futureIndexM
    refine List.Pairwise.map _ (fun a b hab => ?_) (List.pairwise_lt_range h)
    omega
  · cases h with
    | zero => simp [futureIndexM]
    | succ n => simp [futureIndexM, List.head?_map, List.head?_range]

/-- C4 witness: one-step horizons through both index branches (a day-31
month-end keeps the raw output at the next month-end; a day-28 month-end
yields the month-start two months later with a NaN value) and the clipped
future path. -/
theorem C4_forecast_shape_witness :
    forecast_arima_series (fun _ => 31) ⟨0, 31⟩ 1 (fun _ => (5 : ℚ))
      false id = [(⟨1, 31⟩, some 5)]
    ∧ forecast_arima_series (fun _ => 28) ⟨0, 28⟩ 1 (fun _ => (5 : ℚ))
      false id = [(⟨2, 1⟩, none)]
    ∧ (generate_future_forecast 0 1 (fun _ => (-3 : ℚ)) false id).map Prod.fst =
      futureIndexM 0 1 := by
  refine ⟨?_, ?_, ?_⟩
  · have hm := (C4_forecast_shape 0 1 (fun _ => (5 : ℚ)) false id
      (fun _ => (5 : ℚ)) (fun _ => 31) ⟨0, 31⟩).2.2.1 (by norm_num)
    rw [hm]
    norm_num [List.range_succ, List.range_zero]
  · have hs := (C4_forecast_shape 0 1 (fun _ => (5 : ℚ)) false id
      (fun _ => (5 : ℚ)) (fun _ => 28) ⟨0, 28⟩).2.2.2.1
      (by norm_num) (by norm_num) (fun _ => by norm_num)
    rw [hs]
    norm_num [List.range_succ, List.range_zero]
  · exact (C4_forecast_shape 0 1 (fun _ => (-3 : ℚ)) false id
      (fun _ => (-3 : ℚ)) (fun _ => 31) ⟨0, 31⟩).1.2.1

/-- C7 counterexample: `preprocess_data` is not idempotent.  On
`[10,12,10,12,10,25,12,200]` (dates 0–7) the first pass computes
`Q1 = 10, Q3 = 15.25` (bounds `[−0.5, 25.75]`), nulls only `200` and
fills it with the last valid value `12`; the second pass recomputes
`Q3 = 12` on the cleaned data (bounds `[6, 16]`), nulls the surviving
`25` and interpolates `11` for it, so the second output differs from the
first. -/
theorem C7_preprocess_not_idempotent_cex :
    preprocess_data (preprocess_data
        [(0, some 10), (1, some 12), (2, some 10), (3, some 12),
         (4, some 10), (5, some 25), (6, some 12), (7, some 200)]) ≠
      preprocess_data
        [(0, some 10), (1, some 12), (2, some 10), (3, some 12),
         (4, some 10), (5, some 25), (6, some 12), (7, some 200)] := by
  have h1 : remove_outliers_pass
      [(0, some 10), (1, some 12), (2, some 10), (3, some 12),
       (4, some 10), (5, some 25), (6, some 12), (7, some 200)] =
      [(0, some 10), (1, some 12), (2, some 10), (3, some 12),
       (4, some 10), (5, some 25), (6, some 12), (7, none)] := by
    norm_num [remove_outliers_pass, presentVals, quantileLinear,
      List.insertionSort, List.orderedInsert, List.getD, Int.toNat, Option.getD]
  have h2 : fill_missing_pass
      [(0, some 10), (1, some 12), (2, some 10), (3, some 12),
       (4, some 10), (5, some 25), (6, some 12), (7, none)] =
      [(0, some 10), (1, some 12), (2, some 10), (3, some 12),
       (4, some 10), (5, some 25), (6, some 12), (7, some 12)] := by
    norm_num [fill_missing_pass, interpAt, prevValid, nextValid,
      List.enum, List.enumFrom, List.getLast?, List.head?, List.filterMap,
      Option.map]
  have h3 : remove_outliers_pass
      [(0, some 10), (1, some 12), (2, some 10), (3, some 12),
       (4, some 10), (5, some 25), (6, some 12), (7, some 12)] =
      [(0, some 10), (1, some 12), (2, some 10), (3, some 12),
       (4, some 10), (5, none), (6, some 12), (7, some 12)] := by
    norm_num [remove_outliers_pass, presentVals, quantileLinear,
      List.insertionSort, List.orderedInsert, List.getD, Int.toNat,
      Option.getD]
    intro hx
    simp at hx
  have h4 : fill_missing_pass
      [(0, some 10), (1, some 12), (2, some 10), (3, some 12),
       (4, some 10), (5, none), (6, some 12), (7, some 12)] =
      [(0, some 10), (1, some 12), (2, some 10), (3, some 12),
       (4, some 10), (5, some 11), (6, some 12), (7, some 12)] := by
    norm_num [fill_missing_pass, interpAt, prevValid, nextValid,
      List.enum, List.enumFrom, List.getLast?, List.head?, List.filterMap,
      Option.map]
  simp only [preprocess_data, h1, h2, h3, h4]
  intro hcontra
  have h5 : (11 : ℚ) = 25 := by
    simpa using congrArg (fun l => l.getD 5 (0, none)) hcontra
  norm_num at h5

/-- C8 counterexample: `preprocess_data` contains no clip to zero, and a
negative quantity inside its category's IQR bounds survives preparation
unchanged: a constant `−10` series has `IQR = 0` and bounds `[−10, −10]`,
so every value is kept and the prepared series still contains `−10 < 0`. -/
theorem C8_negative_survives_cex :
    preprocess_data
        [(0, some (-10)), (1, some (-10)), (2, some (-10)), (3, some (-10))] =
      [(0, some (-10)), (1, some (-10)), (2, some (-10)), (3, some (-10))]
    ∧ (-10 : ℚ) < 0 := by
  constructor
  · norm_num [preprocess_data, remove_outliers_pass, fill_missing_pass,
      presentVals, quantileLinear, List.insertionSort, List.orderedInsert,
      interpAt, prevValid, nextValid, List.enum, List.enumFrom, List.getD,
      Int.toNat, Option.getD]
  · norm_num

/-- C1 counterexample: the statistical candidate is chosen from the
forecaster's accumulated `metrics` dict, not from the current category's
models.  After category `A` left `arima_A` (rmse 1) in the dict, training
category `B` (own statistical fit `arima_B` with rmse 5, best ensemble
rmse 4) selects `arima_A` — a model of ANOTHER category — as best
overall, while the claim's same-category rule selects
`ensemble_random_forest_B`. -/
theorem C1_cross_category_selection_cex :
    (train_models_for_category_eval [("arima_A", 1)]
        ⟨"B", [("arima_B", 5)], [("random_forest", 4)]⟩).best_overall =
      some "arima_A"
    ∧ claim_best_overall ⟨"B", [("arima_B", 5)], [("random_forest", 4)]⟩ =
      some "ensemble_random_forest_B"
    ∧ ("arima_A" : String) ≠ "ensemble_random_forest_B" := by
  refine ⟨by decide, by decide, by decide⟩

/-- C6: all three chronological split implementations are leakage-free.
(1) `DemandDataProcessor.split_train_test` (date cutoff): every train row's
date is strictly below every test row's date, unconditionally.
(2) `TimeSeriesModels.train_test_split` (positional): when the series is
chronologically ordered (the prepared, resampled series always is), every
train period strictly precedes every test period.
(3) `EnsembleForecaster.train_test_split` (sort by date, positional): when
no entity carries two rows with the same period (one row per
(entity, period) is the data model's invariant), every train row of an
entity strictly precedes every test row of the same entity. -/
theorem C6_chronological_split_no_leakage :
    (∀ (df : List Row) (ts : ℚ) (tr te : List Row),
      split_train_test df ts = some (tr, te) →
      ∀ r ∈ tr, ∀ s ∈ te, r.date < s.date)
    ∧ (∀ (l : List (ℤ × ℚ)) (ts : ℚ) (tr te : List (ℤ × ℚ)),
      (l.map Prod.fst).Pairwise (· < ·) →
      ts_train_test_split l ts = some (tr, te) →
      ∀ a ∈ tr, ∀ b ∈ te, a.1 < b.1)
    ∧ (∀ (rows : List Row) (ts : ℚ),
      rows.Pairwise (fun a b => a.category = b.category → a.date ≠ b.date) →
      ∀ r ∈ (ensemble_train_test_split rows ts).1,
      ∀ s ∈ (ensemble_train_test_split rows ts).2,
      r.category = s.category → r.date < s.date) := by
  refine ⟨?_, ?_, ?_⟩
  · intro df ts tr te hsplit r hr s hs
    cases hc : split_cutoff df ts with
    | none =>
      rw [split_train_test, hc] at hsplit
      exact Option.noConfusion hsplit
    | some td =>
      rw [split_train_test, hc] at hsplit
      simp only [Option.map_some', Option.some.injEq, Prod.mk.injEq] at hsplit
      obtain ⟨htr, hte⟩ := hsplit
      have h1 := (List.mem_filter.mp (htr ▸ hr)).2
      have h2 := (List.mem_filter.mp (hte ▸ hs)).2
      simp only [decide_eq_true_eq] at h1 h2
      exact lt_of_lt_of_le h1 h2
  · intro l ts tr te hsorted hsplit a ha b hb
    by_cases hlen : l.length = 0
    · rw [ts_train_test_split, if_pos hlen] at hsplit
      exact absurd hsplit (by simp)
    · rw [ts_train_test_split, if_neg hlen] at hsplit
      simp only [Option.some.injEq, Prod.mk.injEq] at hsplit
      obtain ⟨htr, hte⟩ := hsplit
      have hpw : l.Pairwise (fun x y => x.1 < y.1) := List.pairwise_map.mp hsorted
      have hsplitpw : ((l.take ((pyInt ((l.length : ℚ) * (1 - ts))).toNat)) ++
          (l.drop ((pyInt ((l.length : ℚ) * (1 - ts))).toNat))).Pairwise
          (fun x y => x.1 < y.1) := by
        rw [List.take_append_drop]; exact hpw
      exact (List.pairwise_append.mp hsplitpw).2.2 a (htr ▸ ha) b (hte ▸ hb)
  · intro rows ts hpw r hr s hs hcat
    have hsymm : ∀ {x y : Row},
        (x.category = y.category → x.date ≠ y.date) →
        (y.category = x.category → y.date ≠ x.date) :=
      fun h hc => (h hc.symm).symm
    haveI : IsTotal Row (fun a b => a.date ≤ b.date) :=
      ⟨fun a b => le_total a.date b.date⟩
    haveI : IsTrans Row (fun a b => a.date ≤ b.date) :=
      ⟨fun _ _ _ h1 h2 => le_trans h1 h2⟩
    have hsorted : (rows.insertionSort (fun a b => a.date ≤ b.date)).Pairwise
        (fun a b => a.date ≤ b.date) :=
      List.sorted_insertionSort _ rows
    have hperm := List.perm_insertionSort (fun a b => a.date ≤ b.date) rows
    have hpw' : (rows.insertionSort (fun a b => a.date ≤ b.date)).Pairwise
        (fun a b => a.category = b.category → a.date ≠ b.date) :=
      (hperm.pairwise_iff hsymm).mpr hpw
    have hr' : r ∈ (rows.insertionSort (fun a b => a.date ≤ b.date)).take
        ((pyInt ((rows.length : ℚ) * (1 - ts))).toNat) := hr
    have hs' : s ∈ (rows.insertionSort (fun a b => a.date ≤ b.date)).drop
        ((pyInt ((rows.length : ℚ) * (1 - ts))).toNat) := hs
    have hle : r.date ≤ s.date := by
      have hsplitpw : (((rows.insertionSort (fun a b => a.date ≤ b.date)).take
          ((pyInt ((rows.length : ℚ) * (1 - ts))).toNat)) ++
          ((rows.insertionSort (fun a b => a.date ≤ b.date)).drop
          ((pyInt ((rows.length : ℚ) * (1 - ts))).toNat))).Pairwise
          (fun a b => a.date ≤ b.date) := by
        rw [List.take_append_drop]; exact hsorted
      exact (List.pairwise_append.mp hsplitpw).2.2 r hr' s hs'
    have hne : r.date ≠ s.date := by
      have hsplitpw : (((rows.insertionSort (fun a b => a.date ≤ b.date)).take
          ((pyInt ((rows.length : ℚ) * (1 - ts))).toNat)) ++
          ((rows.insertionSort (fun a b => a.date ≤ b.date)).drop
          ((pyInt ((rows.length : ℚ) * (1 - ts))).toNat))).Pairwise
          (fun a b => a.category = b.category → a.date ≠ b.date) := by
        rw [List.take_append_drop]; exact hpw'
      exact (List.pairwise_append.mp hsplitpw).2.2 r hr' s hs' hcat
    exact lt_of_le_of_ne hle hne

/-- C6 witness: the three split components applied to concrete data. -/
theorem C6_chronological_split_no_leakage_witness :
    (∀ r ∈ [Row.mk "A" 0 1, Row.mk "A" 1 2],
      ∀ s ∈ [Row.mk "A" 2 3], r.date < s.date)
    ∧ (∀ a ∈ [((0 : ℤ), (1 : ℚ))], ∀ b ∈ [((1 : ℤ), (2 : ℚ))], a.1 < b.1)
    ∧ (∀ r ∈ (ensemble_train_test_split
        [Row.mk "A" 1 2, Row.mk "A" 0 1] (1/2)).1,
      ∀ s ∈ (ensemble_train_test_split
        [Row.mk "A" 1 2, Row.mk "A" 0 1] (1/2)).2,
      r.category = s.category → r.date < s.date) := by
  have h := C6_chronological_split_no_leakage
  refine ⟨?_, ?_, ?_⟩
  · have hcut : split_cutoff
        [Row.mk "A" 0 1, Row.mk "A" 1 2, Row.mk "A" 2 3] (1/3) = some 2 := by
      norm_num [split_cutoff, pyInt, List.dedup, List.insertionSort,
        List.orderedInsert, Int.toNat, List.get?]
    have hsplit : split_train_test
        [Row.mk "A" 0 1, Row.mk "A" 1 2, Row.mk "A" 2 3] (1/3) =
        some ([Row.mk "A" 0 1, Row.mk "A" 1 2], [Row.mk "A" 2 3]) := by
      rw [split_train_test, hcut]
      norm_num [List.filter]
    exact h.1 [Row.mk "A" 0 1, Row.mk "A" 1 2, Row.mk "A" 2 3] (1/3)
      [Row.mk "A" 0 1, Row.mk "A" 1 2] [Row.mk "A" 2 3] hsplit
  · have hsplit : ts_train_test_split [((0 : ℤ), (1 : ℚ)), (1, 2)] (1/2) =
        some ([(0, 1)], [(1, 2)]) := by
      norm_num [ts_train_test_split, pyInt, Int.toNat]
    have hsorted : ([((0 : ℤ), (1 : ℚ)), (1, 2)].map Prod.fst).Pairwise
        (· < ·) := by norm_num
    exact h.2.1 [(0, 1), (1, 2)] (1/2) [(0, 1)] [(1, 2)] hsorted hsplit
  · have hpw : ([Row.mk "A" 1 2, Row.mk "A" 0 1]).Pairwise
        (fun a b => a.category = b.category → a.date ≠ b.date) := by
      norm_num
    exact h.2.2 [Row.mk "A" 1 2, Row.mk "A" 0 1] (1/2) hpw

/-- The metrics object decodes back to what was encoded. -/
theorem decodeMetrics_encodeMetrics (m : Option (List (String × FVal))) :
    decodeMetrics (encodeMetrics m) = some m := by
  cases m with
  | none => rfl
  | some l =>
    simp only [encodeMetrics, decodeMetrics, Option.map_eq_some']
    refine ⟨l, ?_, rfl⟩
    induction l with
    | nil => rfl
    | cons kv t ih =>
      simp only [List.map_cons, List.mapM_cons, ih]
      rfl

/-- One registry entry decodes back to what was encoded. -/
theorem decodeEntry_encodeEntry (e : RegistryEntry) :
    decodeEntry (encodeEntry e) = some e := by
  obtain ⟨mid, mty, cat, spc, ts, mts⟩ := e
  cases spc with
  | none =>
    simp [encodeEntry, decodeEntry, List.lookup, decodeStr, decodeOptStr,
      decodeMetrics_encodeMetrics]
  | some s =>
    simp [encodeEntry, decodeEntry, List.lookup, decodeStr, decodeOptStr,
      decodeMetrics_encodeMetrics]

/-- C9: registry round trip.  For every in-memory registry (the map from
`model_id` to the entry built by `register_model` — model type, category,
optional specification, timestamp and optional metrics, metric values
being floats that may be NaN), `save_model_registry` followed by
`load_model_registry` succeeds and reproduces the identical entry set. -/
theorem C9_registry_round_trip (reg : List (String × RegistryEntry)) :
    load_model_registry (save_model_registry reg) = some reg := by
  simp only [save_model_registry, load_model_registry]
  induction reg with
  | nil => rfl
  | cons ke t ih =>
    simp only [List.map_cons, List.mapM_cons, ih, decodeEntry_encodeEntry]
    rfl

/-- IEEE absolute value never produces `-inf`. -/
theorem FVal.fabs_ne_ninf (v : FVal) : v.fabs ≠ FVal.ninf := by
  cases v <;> simp [FVal.fabs]

/-- A sum of error terms none of which is `-inf` is not `-inf`. -/
theorem FVal.fsum_ne_ninf {l : List FVal} (h : ∀ v ∈ l, v ≠ FVal.ninf) :
    FVal.fsum l ≠ FVal.ninf := by
  induction l with
  | nil => simp [FVal.fsum]
  | cons x xs ih =>
    have hx := h x (List.mem_cons_self x xs)
    have hs := ih (fun v hv => h v (List.mem_cons_of_mem x hv))
    simp only [FVal.fsum, List.foldr_cons] at hs ⊢
    cases x <;> cases hfs : FVal.fsum xs <;>
      simp_all [FVal.add, FVal.fsum]

/-- A sum of error terms containing an `Inf` or `NaN` term (and no
`-inf`) is itself `Inf` or `NaN`. -/
theorem FVal.fsum_infOrNan {l : List FVal}
    (hno : ∀ v ∈ l, v ≠ FVal.ninf)
    (hex : ∃ v ∈ l, v.infOrNan = true) :
    (FVal.fsum l).infOrNan = true := by
  induction l with
  | nil => simp at hex
  | cons x xs ih =>
    have hx := hno x (List.mem_cons_self x xs)
    have hs := FVal.fsum_ne_ninf (fun v hv => hno v (List.mem_cons_of_mem x hv))
    simp only [FVal.fsum, List.foldr_cons]
    obtain ⟨v, hv, hio⟩ := hex
    rcases List.mem_cons.mp hv with rfl | hvv
    · cases v <;> cases hfs : FVal.fsum xs <;>
        simp_all [FVal.add, FVal.fsum, FVal.infOrNan]
    · have := ih (fun w hw => hno w (List.mem_cons_of_mem x hw)) ⟨v, hvv, hio⟩
      cases x <;> cases hfs : FVal.fsum xs <;>
        simp_all [FVal.add, FVal.fsum, FVal.infOrNan]

/-- Dividing a zero actual into its error is `Inf` or `NaN` after the
absolute value. -/
theorem FVal.fabs_div_zero_infOrNan (x : ℚ) :
    ((FVal.fin x).div (FVal.fin 0)).fabs.infOrNan = true := by
  by_cases hx : x = 0
  · simp [FVal.div, hx, FVal.fabs, FVal.infOrNan]
  · by_cases hpos : 0 < x <;>
      simp [FVal.div, hx, hpos, FVal.fabs, FVal.infOrNan]

/-- When some aligned actual value is zero, the raw
`np.mean(|…/actual|)*100` is `Inf` or `NaN`. -/
theorem raw_mape_infOrNan {actual predicted : List ℚ}
    (hz : ∃ ap ∈ actual.zip predicted, ap.1 = 0) :
    (raw_mape actual predicted).infOrNan = true := by
  obtain ⟨ap, hap, hz0⟩ := hz
  have hsumio : (FVal.fsum ((actual.zip predicted).map (fun ap =>
      ((FVal.fin (ap.1 - ap.2)).div (FVal.fin ap.1)).fabs))).infOrNan = true := by
    refine FVal.fsum_infOrNan ?_ ?_
    · intro v hv
      obtain ⟨bp, _, rfl⟩ := List.mem_map.mp hv
      exact FVal.fabs_ne_ninf _
    · refine ⟨((FVal.fin (ap.1 - ap.2)).div (FVal.fin ap.1)).fabs,
        List.mem_map_of_mem _ hap, ?_⟩
      rw [hz0]
      exact FVal.fabs_div_zero_infOrNan _
  have hsumne : FVal.fsum ((actual.zip predicted).map (fun ap =>
      ((FVal.fin (ap.1 - ap.2)).div (FVal.fin ap.1)).fabs)) ≠ FVal.ninf := by
    refine FVal.fsum_ne_ninf ?_
    intro v hv
    obtain ⟨bp, _, rfl⟩ := List.mem_map.mp hv
    exact FVal.fabs_ne_ninf _
  rw [raw_mape, FVal.fmean]
  cases hfs : FVal.fsum ((actual.zip predicted).map (fun ap =>
      ((FVal.fin (ap.1 - ap.2)).div (FVal.fin ap.1)).fabs)) <;>
    rw [hfs] at hsumio hsumne <;>
    simp_all [FVal.div, FVal.mulFin, FVal.infOrNan,
      not_lt.mpr (Nat.cast_nonneg _ : (0 : ℚ) ≤ _)]

/-- C2 as amended.  In `EnsembleForecaster.evaluate_model` (and the
identical `calculate_forecast_metrics`), a zero actual value forces the
range-normalised MAE fallback, which is finite exactly when the actual
values are not all equal; `ModelEvaluator.evaluate_forecast`, however,
masks zero actuals out first, so whenever some actual is nonzero it
returns the masked MAPE (always finite) and never the fallback; when the
actual range is zero the fallback itself resolves to NaN (see the
counterexample). -/
theorem C2_mape_fallback :
    (∀ actual predicted : List ℚ,
      (∃ ap ∈ actual.zip predicted, ap.1 = 0) →
      0 < maxListQ actual - minListQ actual →
      evaluate_model_mape actual predicted =
        FVal.fin ((maeQ actual predicted /
          (maxListQ actual - minListQ actual)) * 100))
    ∧ (∀ actual predicted : List ℚ,
      (∃ ap ∈ actual.zip predicted, ap.1 ≠ 0) →
      evaluate_forecast_mape actual predicted =
        FVal.fin (((((actual.zip predicted).filter
            (fun ap => ap.1 ≠ 0)).map (fun ap => |(ap.1 - ap.2) / ap.1|)).sum /
          ((((actual.zip predicted).filter
            (fun ap => ap.1 ≠ 0)).length : ℚ))) * 100)) := by
  constructor
  · intro actual predicted hz hrange
    rw [evaluate_model_mape]
    rw [if_pos (raw_mape_infOrNan hz), if_pos hrange]
  · intro actual predicted hnz
    obtain ⟨ap, hap, hne⟩ := hnz
    have hmem : ap ∈ (actual.zip predicted).filter (fun ap => ap.1 ≠ 0) :=
      List.mem_filter.mpr ⟨hap, by simpa using hne⟩
    have hlen : 0 < ((actual.zip predicted).filter
        (fun ap => ap.1 ≠ 0)).length :=
      List.length_pos_of_mem hmem
    rw [evaluate_forecast_mape]
    simp only [if_pos hlen]
    rw [if_neg (by simp [FVal.infOrNan])]

/-- C2 counterexample: with actuals `[0, 0]` and predictions `[1, 2]`
(every actual zero), `ModelEvaluator.evaluate_forecast` masks away every
pair and falls back, but the fallback's range `max − min = 0`, so the
returned MAPE is NaN — and the ensemble evaluator returns NaN on the
same input — contradicting the claim that a zero actual never yields
NaN/Inf. -/
theorem C2_zero_actuals_mape_nan_cex :
    evaluate_forecast_mape [0, 0] [1, 2] = FVal.nan
    ∧ evaluate_model_mape [0, 0] [1, 2] = FVal.nan := by
  constructor
  · norm_num [evaluate_forecast_mape, maxListQ, minListQ, List.zip_cons_cons,
      List.filter, FVal.infOrNan]
  · norm_num [evaluate_model_mape, raw_mape, FVal.fmean, FVal.fsum,
      List.zip_cons_cons, FVal.div, FVal.add, FVal.fabs, FVal.mulFin,
      FVal.infOrNan, maxListQ, minListQ]

/-- C2 witness: actuals `[0, 4]`, predictions `[1, 2]`: the ensemble
evaluator falls back to the range-normalised MAE, the masking evaluator
returns the masked MAPE. -/
theorem C2_mape_fallback_witness :
    evaluate_model_mape [0, 4] [1, 2] = FVal.fin (75/2)
    ∧ evaluate_forecast_mape [0, 4] [1, 2] = FVal.fin 50 := by
  constructor
  · have h := C2_mape_fallback.1 [0, 4] [1, 2]
      ⟨(0, 1), by simp [List.zip_cons_cons], rfl⟩
      (by norm_num [maxListQ, minListQ])
    rw [h]
    norm_num [maeQ, maxListQ, minListQ, List.zip_cons_cons]
  · have h := C2_mape_fallback.2 [0, 4] [1, 2]
      ⟨(4, 2), by simp [List.zip_cons_cons], by norm_num⟩
    rw [h]
    norm_num [List.zip_cons_cons, List.filter]
    rw [abs_of_pos] <;> norm_num

/-- Folding fresh keys into a Python dict appends them in order. -/
theorem foldl_dictInsert (l : List (String × ℚ)) (acc : List (String × ℚ))
    (hnodup : (l.map Prod.fst).Nodup)
    (hdisj : ∀ k ∈ l.map Prod.fst, k ∉ acc.map Prod.fst) :
    l.foldl (fun d kv => dictInsert d kv.1 kv.2) acc = acc ++ l := by
  induction l generalizing acc with
  | nil => simp
  | cons kv t ih =>
    have hk : kv.1 ∉ acc.map Prod.fst := hdisj kv.1 (by simp)
    have hins : dictInsert acc kv.1 kv.2 = acc ++ [(kv.1, kv.2)] := by
      rw [dictInsert, if_neg]
      simp only [List.any_eq_true, decide_eq_true_eq, not_exists, not_and]
      intro p hp hpk
      exact hk (hpk ▸ List.mem_map_of_mem Prod.fst hp)
    have hnodup' : (kv.1 :: t.map Prod.fst).Nodup := by simpa using hnodup
    obtain ⟨hk1, ht⟩ := List.nodup_cons.mp hnodup'
    rw [List.foldl_cons, hins, ih (acc ++ [(kv.1, kv.2)]) ht ?_]
    · simp
    · intro k hkt
      simp only [List.map_append, List.mem_append, List.map_cons,
        List.map_nil, List.mem_singleton, not_or]
      refine ⟨hdisj k (by simp [hkt]), ?_⟩
      intro hcontra
      exact hk1 (hcontra ▸ hkt)

/-- C1 as amended: the overall winner compares the minimum-RMSE entry of
the statistical forecaster's ACCUMULATED metrics map — which, for a
category trained while that map holds no other category's entries (e.g.
the first category of a run on a fresh service), is exactly the
same-category rule the claim states — against the minimum-RMSE ensemble
model of the category, the statistical side winning ties.  (For any later
category the accumulated map also holds every earlier category's
statistical models; see the counterexample.) -/
theorem C1_best_overall_selection (c : CatTraining)
    (hnodup : (c.tsFits.map Prod.fst).Nodup) :
    (train_models_for_category_eval [] c).best_overall = claim_best_overall c
    ∧ (∀ tk tr ek er, argminVal c.tsFits = some (tk, tr) →
        argminVal c.ensembleResults = some (ek, er) →
        (train_models_for_category_eval [] c).best_overall =
          some (if tr ≤ er then tk else "ensemble_" ++ ek ++ "_" ++ c.category)) := by
  have hst : ts_metrics_after [] c = c.tsFits := by
    rw [ts_metrics_after, foldl_dictInsert c.tsFits [] hnodup (by simp)]
    simp
  constructor
  · simp only [train_models_for_category_eval, claim_best_overall, hst]
    rcases h1 : argminVal c.tsFits with _ | ⟨tk, tr⟩ <;>
      rcases h2 : argminVal c.ensembleResults with _ | ⟨ek, er⟩ <;>
        simp only [h1, h2]
    by_cases htr : tr ≤ er <;> simp [htr]
  · intro tk tr ek er h1 h2
    simp only [train_models_for_category_eval, hst, h1, h2]
    by_cases htr : tr ≤ er <;> simp [htr]

/-- C1 witness: one category trained on a fresh service, with equal best
statistical and ensemble RMSE — the tie goes to the statistical model. -/
theorem C1_best_overall_selection_witness :
    (train_models_for_category_eval []
        ⟨"A", [("arima_A", (3 : ℚ))], [("ridge", (3 : ℚ))]⟩).best_overall =
      some "arima_A" := by
  have h := C1_best_overall_selection
    ⟨"A", [("arima_A", (3 : ℚ))], [("ridge", (3 : ℚ))]⟩ (by simp)
  exact h.2 "arima_A" 3 "ridge" 3 rfl rfl |>.trans (by norm_num)

/-- The running minimum of months is below its seed. -/
theorem foldl_min_le_init (rs : List ItemRow) (a : ℤ) :
    rs.foldl (fun m p => min m p.month) a ≤ a := by
  induction rs generalizing a with
  | nil => simp
  | cons r t ih => exact le_trans (ih (min a r.month)) (min_le_left _ _)

/-- The running minimum of months is below every month in the list. -/
theorem foldl_min_le_mem (rs : List ItemRow) (a : ℤ) :
    ∀ r ∈ rs, rs.foldl (fun m p => min m p.month) a ≤ r.month := by
  induction rs generalizing a with
  | nil => simp
  | cons x t ih =>
    intro r hr
    rcases List.mem_cons.mp hr with rfl | hrt
    · exact le_trans (foldl_min_le_init t (min a r.month)) (min_le_right _ _)
    · exact ih (min a x.month) r hrt

/-- The running maximum of months is above its seed. -/
theorem le_foldl_max_init (rs : List ItemRow) (a : ℤ) :
    a ≤ rs.foldl (fun m p => max m p.month) a := by
  induction rs generalizing a with
  | nil => simp
  | cons r t ih => exact le_trans (le_max_left _ _) (ih (max a r.month))

/-- The running maximum of months is above every month in the list. -/
theorem le_foldl_max_mem (rs : List ItemRow) (a : ℤ) :
    ∀ r ∈ rs, r.month ≤ rs.foldl (fun m p => max m p.month) a := by
  induction rs generalizing a with
  | nil => simp
  | cons x t ih =>
    intro r hr
    rcases List.mem_cons.mp hr with rfl | hrt
    · exact le_trans (le_max_right _ _) (le_foldl_max_init t (max a r.month))
    · exact ih (max a x.month) r hrt

/-- A list of rows with pairwise-distinct months cannot outnumber the
months its monthly resample spans. -/
theorem length_le_month_span (rows : List ItemRow)
    (h : (rows.map ItemRow.month).Nodup) :
    rows.length ≤ month_span rows := by
  cases rows with
  | nil => simp [month_span]
  | cons r rs =>
    have hmem : ∀ m ∈ ((r :: rs).map ItemRow.month).toFinset,
        m ∈ Finset.Icc (rs.foldl (fun m p => min m p.month) r.month)
          (rs.foldl (fun m p => max m p.month) r.month) := by
      intro m hm
      rw [List.mem_toFinset, List.mem_map] at hm
      obtain ⟨x, hx, rfl⟩ := hm
      rw [Finset.mem_Icc]
      rcases List.mem_cons.mp hx with rfl | hxr
      · exact ⟨foldl_min_le_init rs x.month, le_foldl_max_init rs x.month⟩
      · exact ⟨foldl_min_le_mem rs r.month x hxr, le_foldl_max_mem rs r.month x hxr⟩
    have hcard := Finset.card_le_card (fun m hm => hmem m hm)
    rw [List.toFinset_card_of_nodup h, List.length_map, Int.card_Icc] at hcard
    have : ((rs.foldl (fun m p => max m p.month) r.month) + 1 -
        (rs.foldl (fun m p => min m p.month) r.month)) =
        ((rs.foldl (fun m p => max m p.month) r.month) -
        (rs.foldl (fun m p => min m p.month) r.month) + 1) := by ring
    rw [this] at hcard
    exact hcard

/-- A clipped forecast value, when finite, is non-negative. -/
theorem FVal.clip0_fin_nonneg (w : FVal) :
    ∀ q : ℚ, FVal.clip0 w = FVal.fin q → 0 ≤ q := by
  cases w <;> intro q hq <;> simp [FVal.clip0] at hq
  · exact hq ▸ le_max_left 0 _
  · exact hq ▸ le_refl 0

/-- C3: every specification with at least 5 rows (of pairwise-distinct
months, the item collection's shape) in a category whose best model
produced `catForecast` receives the ratio-method forecast: the category
forecast scaled by the item's applied mean share of the category total
(mean of monthly spec/category quotients; `0.1` when that mean is NaN or
zero) and clipped at zero — and every finite forecast value is
non-negative.  `generate_item_level_forecasts` fits no item-level model,
so the "directly fitted model" exception is vacuous in this code path. -/
theorem C3_item_share_disaggregation (processed : List ItemRow)
    (category specification : String) (catForecast : List (ℤ × ℚ))
    (hlen : 5 ≤ (processed.filter (fun r =>
      r.category = category ∧ r.specification = specification)).length)
    (hnodup : ((processed.filter (fun r =>
      r.category = category ∧ r.specification = specification)).map
        ItemRow.month).Nodup) :
    generate_item_forecast processed category specification catForecast =
      some (catForecast.map (fun dv => (dv.1, FVal.clip0
        ((applied_share (mean_share
          (monthly_sum (processed.filter (fun r =>
            r.category = category ∧ r.specification = specification)))
          (monthly_sum (processed.filter (fun r =>
            r.category = category))))).mulFin dv.2))))
    ∧ applied_share FVal.nan = FVal.fin (1/10)
    ∧ applied_share (FVal.fin 0) = FVal.fin (1/10)
    ∧ (∀ out, generate_item_forecast processed category specification
        catForecast = some out →
        ∀ p ∈ out, ∀ q : ℚ, p.2 = FVal.fin q → 0 ≤ q) := by
  have hspan := length_le_month_span _ hnodup
  have hmain : generate_item_forecast processed category specification
      catForecast =
      some (catForecast.map (fun dv => (dv.1, FVal.clip0
        ((applied_share (mean_share
          (monthly_sum (processed.filter (fun r =>
            r.category = category ∧ r.specification = specification)))
          (monthly_sum (processed.filter (fun r =>
            r.category = category))))).mulFin dv.2)))) := by
    rw [generate_item_forecast, if_neg (by omega), if_neg (by omega)]
  refine ⟨hmain, rfl, by simp [applied_share], ?_⟩
  intro out hout p hp q hq
  rw [hmain] at hout
  obtain rfl := Option.some_injective _ hout.symm
  obtain ⟨dv, _, rfl⟩ := List.mem_map.mp hp
  exact FVal.clip0_fin_nonneg _ q hq

/-- C3 witness: a category `A` with two specifications of equal volume
over months 0–4; spec `x`'s forecast is the category forecast halved. -/
theorem C3_item_share_disaggregation_witness :
    (generate_item_forecast
      [ItemRow.mk "A" "x" 0 1, ItemRow.mk "A" "x" 1 1, ItemRow.mk "A" "x" 2 1,
       ItemRow.mk "A" "x" 3 1, ItemRow.mk "A" "x" 4 1,
       ItemRow.mk "A" "y" 0 1, ItemRow.mk "A" "y" 1 1, ItemRow.mk "A" "y" 2 1,
       ItemRow.mk "A" "y" 3 1, ItemRow.mk "A" "y" 4 1]
      "A" "x" [(5, 100)]).isSome = true := by
  have h := C3_item_share_disaggregation
    [ItemRow.mk "A" "x" 0 1, ItemRow.mk "A" "x" 1 1, ItemRow.mk "A" "x" 2 1,
     ItemRow.mk "A" "x" 3 1, ItemRow.mk "A" "x" 4 1,
     ItemRow.mk "A" "y" 0 1, ItemRow.mk "A" "y" 1 1, ItemRow.mk "A" "y" 2 1,
     ItemRow.mk "A" "y" 3 1, ItemRow.mk "A" "y" 4 1]
    "A" "x" [(5, 100)] (by decide) (by decide)
  rw [h.1]
  rfl

/-- Outlier nulling never changes the time axis. -/
theorem remove_outliers_map_fst (l : List Obs) :
    (remove_outliers_pass l).map Prod.fst = l.map Prod.fst := by
  rw [remove_outliers_pass]
  by_cases hv : (presentVals l).length = 0
  · rw [if_pos hv]
  · rw [if_neg hv, List.map_map]
    refine List.map_congr_left ?_
    intro p _
    obtain ⟨d, v⟩ := p
    cases v with
    | none => rfl
    | some x =>
      show (if _ then ((d, none) : Obs) else (d, some x)).1 = d
      split <;> rfl

/-- Every present value surviving outlier nulling was present in the
input. -/
theorem remove_outliers_some_mem (l : List Obs) :
    ∀ p ∈ remove_outliers_pass l, ∀ x : ℚ, p.2 = some x →
      ∃ p' ∈ l, p'.2 = some x := by
  intro p hp x hx
  rw [remove_outliers_pass] at hp
  by_cases hv : (presentVals l).length = 0
  · rw [if_pos hv] at hp
    exact ⟨p, hp, hx⟩
  · rw [if_neg hv] at hp
    obtain ⟨⟨d, v⟩, ha, heq⟩ := List.mem_map.mp hp
    cases v with
    | none =>
      rw [← heq] at hx
      exact absurd hx (by simp)
    | some y =>
      by_cases hout : y < quantileLinear (presentVals l) (1/4) -
          2 * (quantileLinear (presentVals l) (3/4) -
            quantileLinear (presentVals l) (1/4)) ∨
          quantileLinear (presentVals l) (3/4) +
          2 * (quantileLinear (presentVals l) (3/4) -
            quantileLinear (presentVals l) (1/4)) < y
      · rw [← heq] at hx
        simp only [hout, if_true] at hx
        exact absurd hx (by simp)
      · rw [← heq] at hx
        simp only [hout, if_false] at hx
        exact ⟨(d, some y), ha, hx⟩

/-- Interpolation of a series with non-negative present values and a
strictly increasing time axis only produces non-negative values. -/
theorem fill_missing_nonneg (m : List Obs)
    (hpos : ∀ p ∈ m, ∀ x : ℚ, p.2 = some x → 0 ≤ x)
    (hsorted : (m.map Prod.fst).Pairwise (· < ·)) :
    ∀ p ∈ fill_missing_pass m, ∀ x : ℚ, p.2 = some x → 0 ≤ x := by
  have hpw : m.Pairwise (fun p q => p.1 < q.1) := List.pairwise_map.mp hsorted
  intro p hp x hx
  rw [fill_missing_pass] at hp
  obtain ⟨⟨i, d, v⟩, hiv, heq⟩ := List.mem_map.mp hp
  cases v with
  | some y =>
    have hmem : ((d : ℤ), some y) ∈ m := by
      have := List.mem_map_of_mem Prod.snd hiv
      rwa [List.enum_map_snd] at this
    rw [← heq] at hx
    simp only at hx
    have hxy : y = x := Option.some_injective _ hx
    exact hxy ▸ hpos _ hmem y rfl
  | none =>
    rw [← heq] at hx
    simp only at hx
    have hget : m[i]? = some (d, none) :=
      List.mem_enum_iff_getElem?.mp hiv
    obtain ⟨hi, hgeti⟩ := List.getElem?_eq_some.mp hget
    rw [interpAt] at hx
    cases hprev : prevValid m i with
    | none => rw [hprev] at hx; exact absurd hx (by simp)
    | some dv1 =>
      obtain ⟨d1, v1⟩ := dv1
      have hmem1 : ∃ a ∈ m.take i, a = ((d1 : ℤ), some v1) := by
        have hmm := List.mem_of_mem_getLast? (hprev ▸ rfl :
          ((m.take i).filterMap (fun dv =>
            dv.2.map (fun x => (dv.1, x)))).getLast? = some (d1, v1))
        obtain ⟨a, ha, hga⟩ := List.mem_filterMap.mp hmm
        obtain ⟨da, va⟩ := a
        cases va with
        | none => exact absurd hga (by simp)
        | some ya =>
          simp only [Option.map_some', Option.some.injEq, Prod.mk.injEq] at hga
          exact ⟨(da, some ya), ha, by rw [hga.1, hga.2]⟩
      obtain ⟨a, hatake, rfl⟩ := hmem1
      have hv1 : 0 ≤ v1 := hpos _ (List.take_subset i m hatake) v1 rfl
      have hd1 : d1 < d := by
        have hdrop : m.drop i = (d, none) :: m.drop (i + 1) := by
          rw [List.drop_eq_getElem_cons hi, hgeti]
        have hsplitpw : (m.take i ++ m.drop i).Pairwise
            (fun p q => p.1 < q.1) := by
          rw [List.take_append_drop]; exact hpw
        have := (List.pairwise_append.mp hsplitpw).2.2 _ hatake (d, none)
          (by rw [hdrop]; exact List.mem_cons_self _ _)
        exact this
      cases hnext : nextValid m i with
      | none =>
        rw [hprev, hnext] at hx
        simp only [Option.some.injEq] at hx
        exact hx ▸ hv1
      | some dv2 =>
        obtain ⟨d2, v2⟩ := dv2
        have hmem2 : ∃ b ∈ m.drop (i + 1), b = ((d2 : ℤ), some v2) := by
          have hmm := List.mem_of_mem_head? (hnext ▸ rfl :
            ((m.drop (i + 1)).filterMap (fun dv =>
              dv.2.map (fun x => (dv.1, x)))).head? = some (d2, v2))
          obtain ⟨b, hb, hgb⟩ := List.mem_filterMap.mp hmm
          obtain ⟨db, vb⟩ := b
          cases vb with
          | none => exact absurd hgb (by simp)
          | some yb =>
            simp only [Option.map_some', Option.some.injEq, Prod.mk.injEq] at hgb
            exact ⟨(db, some yb), hb, by rw [hgb.1, hgb.2]⟩
        obtain ⟨b, hbdrop, rfl⟩ := hmem2
        have hv2 : 0 ≤ v2 := hpos _ (List.drop_subset (i + 1) m hbdrop) v2 rfl
        have hd2 : d < d2 := by
          have htake : (d, (none : Option ℚ)) ∈ m.take (i + 1) := by
            rw [List.take_succ, hget]
            exact List.mem_append.mpr (Or.inr (by simp))
          have hsplitpw : (m.take (i + 1) ++ m.drop (i + 1)).Pairwise
              (fun p q => p.1 < q.1) := by
            rw [List.take_append_drop]; exact hpw
          exact (List.pairwise_append.mp hsplitpw).2.2 _ htake _ hbdrop
        rw [hprev, hnext] at hx
        simp only [Option.some.injEq] at hx
        have hden : (0 : ℚ) < (d2 : ℚ) - (d1 : ℚ) := by
          have : (d1 : ℚ) < (d2 : ℚ) := by exact_mod_cast lt_trans hd1 hd2
          linarith
        have hnum0 : (0 : ℚ) ≤ (d : ℚ) - (d1 : ℚ) := by
          have : (d1 : ℚ) < (d : ℚ) := by exact_mod_cast hd1
          linarith
        have hnum1 : (d : ℚ) - (d1 : ℚ) ≤ (d2 : ℚ) - (d1 : ℚ) := by
          have : (d : ℚ) < (d2 : ℚ) := by exact_mod_cast hd2
          linarith
        have hth0 : (0 : ℚ) ≤ ((d : ℚ) - (d1 : ℚ)) / ((d2 : ℚ) - (d1 : ℚ)) :=
          div_nonneg hnum0 (le_of_lt hden)
        have hth1 : ((d : ℚ) - (d1 : ℚ)) / ((d2 : ℚ) - (d1 : ℚ)) ≤ 1 :=
          (div_le_one hden).mpr hnum1
        rw [mul_div_assoc] at hx
        rw [← hx]
        nlinarith [mul_nonneg hv2 hth0,
          mul_nonneg hv1 (sub_nonneg.mpr hth1)]

/-- C8 as amended: `preprocess_data` contains no clip, but when every
input quantity is non-negative (and the series is chronologically
ordered, as the fetch step guarantees), every present quantity after
preparation is non-negative: nulling only removes values, and time
interpolation produces convex combinations of surviving values (or
copies the last valid value), which cannot be negative.  A negative
input value inside the IQR bounds, however, survives (see the
counterexample) — the claimed clip does not exist. -/
theorem C8_quantity_nonneg (l : List Obs)
    (hpos : ∀ p ∈ l, ∀ x : ℚ, p.2 = some x → 0 ≤ x)
    (hsorted : (l.map Prod.fst).Pairwise (· < ·)) :
    ∀ p ∈ preprocess_data l, ∀ x : ℚ, p.2 = some x → 0 ≤ x := by
  rw [preprocess_data]
  refine fill_missing_nonneg _ ?_ ?_
  · intro p hp x hx
    obtain ⟨p', hp', hx'⟩ := remove_outliers_some_mem l p hp x hx
    exact hpos p' hp' x hx'
  · rw [remove_outliers_map_fst]
    exact hsorted

/-- C8 witness: a short non-negative ordered series stays non-negative
through preparation — the first prepared quantity is non-negative. -/
theorem C8_quantity_nonneg_witness :
    0 ≤ ((preprocess_data [(0, some 1), (1, some 0), (2, some 3)]).getD 0
      ((0 : ℤ), none)).2.getD 0 := by
  have hpos : ∀ p ∈ [((0 : ℤ), some (1 : ℚ)), (1, some 0), (2, some 3)],
      ∀ x : ℚ, p.2 = some x → 0 ≤ x := by
    intro p hp x hx
    fin_cases hp <;> (injection hx with h ; subst h ; norm_num)
  have h := C8_quantity_nonneg [(0, some 1), (1, some 0), (2, some 3)]
    hpos (by norm_num)
  have heval : preprocess_data
      [((0 : ℤ), some (1 : ℚ)), (1, some 0), (2, some 3)] =
      [(0, some 1), (1, some 0), (2, some 3)] := by
    norm_num [preprocess_data, remove_outliers_pass, fill_missing_pass,
      presentVals, quantileLinear, List.insertionSort, List.orderedInsert,
      interpAt, prevValid, nextValid, List.enum, List.enumFrom, List.getD,
      Int.toNat, Option.getD]
  have hone := h ((0 : ℤ), some (1 : ℚ)) (by rw [heval]; simp) 1 rfl
  have hgoal : ((([((0 : ℤ), some (1 : ℚ)), (1, some 0),
      (2, some 3)]).getD 0 ((0 : ℤ), none)).2).getD 0 = 1 := rfl
  rw [heval, hgoal]
  exact hone

/-- All-present series are untouched by the interpolation pass. -/
theorem fill_missing_all_present (l : List Obs)
    (hall : ∀ p ∈ l, p.2.isSome) :
    fill_missing_pass l = l := by
  rw [fill_missing_pass]
  refine (List.map_congr_left ?_).trans (List.enum_map_snd l)
  intro p hp
  obtain ⟨i, d, v⟩ := p
  have hmem : ((d : ℤ), v) ∈ l := by
    have := List.mem_map_of_mem Prod.snd hp
    rwa [List.enum_map_snd] at this
  have hs := hall _ hmem
  cases v with
  | none => exact absurd hs (by simp)
  | some x => rfl

/-- C7 as amended: `preprocess_data` is a no-op — hence idempotent — on a
series that is already fully present and entirely inside the IQR bounds
recomputed from that series itself; in general, however, the second run
recomputes the quantiles on the cleaned output, which can null further
values (see the counterexample), so idempotence fails. -/
theorem C7_preprocess_fixpoint (l : List Obs)
    (hall : ∀ p ∈ l, p.2.isSome)
    (hbounds : ∀ p ∈ l, ∀ x : ℚ, p.2 = some x →
      quantileLinear (presentVals l) (1/4) -
        2 * (quantileLinear (presentVals l) (3/4) -
          quantileLinear (presentVals l) (1/4)) ≤ x ∧
      x ≤ quantileLinear (presentVals l) (3/4) +
        2 * (quantileLinear (presentVals l) (3/4) -
          quantileLinear (presentVals l) (1/4))) :
    preprocess_data l = l := by
  have hro : remove_outliers_pass l = l := by
    rw [remove_outliers_pass]
    by_cases hv : (presentVals l).length = 0
    · rw [if_pos hv]
    · rw [if_neg hv]
      refine (List.map_congr_left ?_).trans (List.map_id' l)
      intro p hp
      obtain ⟨d, v⟩ := p
      cases v with
      | none => exact absurd (hall _ hp) (by simp)
      | some x =>
        obtain ⟨hlb, hub⟩ := hbounds _ hp x rfl
        have hc : ¬(x < quantileLinear (presentVals l) (1/4) -
            2 * (quantileLinear (presentVals l) (3/4) -
              quantileLinear (presentVals l) (1/4)) ∨
            quantileLinear (presentVals l) (3/4) +
            2 * (quantileLinear (presentVals l) (3/4) -
              quantileLinear (presentVals l) (1/4)) < x) := by
          push_neg
          exact ⟨hlb, hub⟩
        simp only
        rw [if_neg hc]
  rw [preprocess_data, hro]
  exact fill_missing_all_present l hall

/-- C7 witness: a clean two-point series is a fixed point of
`preprocess_data`. -/
theorem C7_preprocess_fixpoint_witness :
    preprocess_data [(0, some 10), (1, some 12)] =
      [(0, some 10), (1, some 12)] := by
  have hq1 : quantileLinear
      (presentVals [((0 : ℤ), some (10 : ℚ)), (1, some 12)]) (1/4) = 21/2 := by
    norm_num [quantileLinear, presentVals, List.insertionSort,
      List.orderedInsert, Int.toNat, List.getD]
  have hq3 : quantileLinear
      (presentVals [((0 : ℤ), some (10 : ℚ)), (1, some 12)]) (3/4) = 23/2 := by
    norm_num [quantileLinear, presentVals, List.insertionSort,
      List.orderedInsert, Int.toNat, List.getD]
  refine C7_preprocess_fixpoint _ (by decide) ?_
  intro p hp x hx
  rw [hq1, hq3]
  fin_cases hp <;> (injection hx with h ; subst h ; norm_num)

end GPForecast
